import Mathlib

/-!
Verification of the text-analysis pipeline of `app.py` (Analisador de Texto
Multidimensional).  The Python functions `analyze_sentiment`,
`analyze_categories`, `calculate_percentages`, `calculate_axes` and
`generate_insights` are embedded as executable Lean functions.

Modelling conventions:
* Python floats are modelled as exact rationals (the branch structure of the
  code only compares against the literals 0.1, 0.3, 0.7, 50, 70, 100); the
  decimal literals of the source are written as the exact rationals
  `mkRat 1 10`, `mkRat 3 10`, `mkRat 7 10` and their negations.
* Python dicts are modelled as association lists in insertion order; a raised
  `KeyError` is modelled as `Option.none`.
* The external TextBlob sentiment estimator and the translator are parameters
  (the translator returns `none` when the translation raises).
* The character classes of the regexes `[^\w\s]` and `\b` are modelled over
  ASCII plus the Portuguese accented letters this application works with, and
  `str.lower` likewise; `re.findall` with pattern `\b<escaped keyword>\b` is
  modelled by the literal left-to-right scanner `countAux` (the keyword is
  matched literally because `re.escape` makes it literal; empty keywords are
  not modelled).
-/

namespace TextoMD

/-- Portuguese accented letters treated as word characters (Python `\w` is
Unicode-aware; this is its restriction to the alphabet of this app). -/
def accentedChars : List Char :=
  ['á', 'é', 'í', 'ó', 'ú', 'â', 'ê', 'ô', 'ã', 'õ', 'ç', 'à', 'ü',
   'Á', 'É', 'Í', 'Ó', 'Ú', 'Â', 'Ê', 'Ô', 'Ã', 'Õ', 'Ç', 'À', 'Ü']

/-- `str.lower` on one character, for ASCII plus the accented letters above. -/
def pyLowerChar (c : Char) : Char :=
  if c == 'Á' then 'á' else if c == 'É' then 'é' else if c == 'Í' then 'í'
  else if c == 'Ó' then 'ó' else if c == 'Ú' then 'ú' else if c == 'Â' then 'â'
  else if c == 'Ê' then 'ê' else if c == 'Ô' then 'ô' else if c == 'Ã' then 'ã'
  else if c == 'Õ' then 'õ' else if c == 'Ç' then 'ç' else if c == 'À' then 'à'
  else if c == 'Ü' then 'ü' else c.toLower

/-- `texto.lower()`. -/
def pyLower (s : String) : String :=
  String.mk (s.toList.map pyLowerChar)

/-- Python regex `\w` (word character). -/
def isWordChar (c : Char) : Bool :=
  c.isAlphanum || c == '_' || accentedChars.contains c

/-- Python regex `\s` (whitespace). -/
def isSpaceChar (c : Char) : Bool :=
  c.isWhitespace

/-- `re.sub(r'[^\w\s]', '', texto.lower())` from `analyze_categories`. -/
def clean (texto : String) : String :=
  String.mk ((pyLower texto).toList.filter (fun c => isWordChar c || isSpaceChar c))

/-- `any(palavra in texto.lower() for palavra in ['é', 'á', 'ã', 'ç', 'õ'])`
from `analyze_sentiment`. -/
def hasDiacritic (texto : String) : Bool :=
  ['é', 'á', 'ã', 'ç', 'õ'].any (fun palavra => (pyLower texto).toList.contains palavra)

/-- Does the pattern `\b<kw>\b` (kw matched literally) match at the current
position?  `prevWord` records whether the character before the current
position is a word character (`false` at the start of the string); a `\b`
boundary holds where word-ness changes. -/
def matchAt (kw : List Char) (prevWord : Bool) (s : List Char) : Bool :=
  match kw with
  | [] => false
  | k :: ks =>
    (k :: ks).isPrefixOf s &&
    (prevWord != isWordChar k) &&
    (isWordChar (ks.getLastD k) !=
      (match s.drop (ks.length + 1) with
       | [] => false
       | d :: _ => isWordChar d))

/-- Left-to-right non-overlapping scan of `re.findall`: at each position try
`\b<kw>\b`; on success count it and resume after the match (`skip` counts the
remaining characters of a match being consumed). -/
def countAux (kw : List Char) (prevWord : Bool) (skip : ℕ) : List Char → ℕ
  | [] => 0
  | c :: rest =>
    match skip with
    | Nat.succ m => countAux kw (isWordChar c) m rest
    | 0 =>
      if matchAt kw prevWord (c :: rest) then
        1 + countAux kw (isWordChar c) (kw.length - 1) rest
      else
        countAux kw (isWordChar c) 0 rest

/-- `len(re.findall(r'\b' + re.escape(palavra) + r'\b', texto_limpo))`. -/
def countWholeWord (palavra : String) (texto_limpo : String) : ℕ :=
  match palavra.toList with
  | [] => 0
  | k :: ks => countAux (k :: ks) false 0 texto_limpo.toList

/-- The maximal runs of word characters of a character list (its "words").
This is the specification-side notion used to state whole-word matching. -/
def wordTokens (s : List Char) : List (List Char) :=
  match s with
  | [] => []
  | c :: rest =>
    if isWordChar c then
      (c :: rest.takeWhile isWordChar) :: wordTokens (rest.dropWhile isWordChar)
    else
      wordTokens rest
termination_by s.length
decreasing_by
  · simp only [List.length_cons]
    exact Nat.lt_succ_of_le (List.dropWhile_sublist isWordChar).length_le
  · simp only [List.length_cons]
    exact Nat.lt_succ_self _

/-- `scores[categoria] += n` on the association-list model of the dict. -/
def addScore : List (String × ℕ) → String → ℕ → List (String × ℕ)
  | [], _, _ => []
  | (c, s) :: rest, cat, n =>
    if c = cat then (c, s + n) :: rest else (c, s) :: addScore rest cat n

/-- The inner loop of `analyze_categories`: for each keyword of one category,
add its match count to the category score and to the running total. -/
def scoreCategory (texto_limpo : String) (acc : List (String × ℕ) × ℕ)
    (cp : String × List String) : List (String × ℕ) × ℕ :=
  cp.2.foldl
    (fun acc2 palavra =>
      let n := countWholeWord palavra texto_limpo
      (addScore acc2.1 cp.1 n, acc2.2 + n))
    acc

/-- `analyze_categories(texto, categories)`: returns the per-category scores
dict (initialised to 0 for every category) and `total_palavras_chave`. -/
def analyze_categories (texto : String) (categories : List (String × List String)) :
    List (String × ℕ) × ℕ :=
  let texto_limpo := clean texto
  categories.foldl (scoreCategory texto_limpo)
    (categories.map (fun cp => (cp.1, 0)), 0)

/-- `calculate_percentages(scores)`. -/
def calculate_percentages (scores : List (String × ℕ)) : List (String × ℚ) :=
  let total_score : ℕ := (scores.map Prod.snd).sum
  scores.map (fun cp =>
    (cp.1, if total_score > 0 then ((cp.2 : ℚ) / (total_score : ℚ)) * 100 else 0))

/-- The result dict of `calculate_axes`. -/
structure Axes where
  pensamento : ℚ
  acao : ℚ
  subjetivo : ℚ
  objetivo : ℚ
  deriving DecidableEq

/-- `calculate_axes(percentuais)`; the `KeyError` raised on a missing category
key is modelled as `none`. -/
def calculate_axes (percentuais : List (String × ℚ)) : Option Axes :=
  match percentuais.lookup "Pensamento Subjetivo", percentuais.lookup "Pensamento Objetivo",
      percentuais.lookup "Ação Comportamental", percentuais.lookup "Ação Prática" with
  | some ps, some po, some ac, some ap =>
    let pensamento_total := ps + po
    let acao_total := ac + ap
    let subjetividade_total := ps + ac
    let objetividade_total := po + ap
    let pensamento_percent :=
      if pensamento_total + acao_total > 0 then
        pensamento_total / (pensamento_total + acao_total) * 100
      else 50
    let acao_percent :=
      if pensamento_total + acao_total > 0 then
        acao_total / (pensamento_total + acao_total) * 100
      else 50
    let subjetivo_percent :=
      if subjetividade_total + objetividade_total > 0 then
        subjetividade_total / (subjetividade_total + objetividade_total) * 100
      else 50
    let objetivo_percent :=
      if subjetividade_total + objetividade_total > 0 then
        objetividade_total / (subjetividade_total + objetividade_total) * 100
      else 50
    some ⟨pensamento_percent, acao_percent, subjetivo_percent, objetivo_percent⟩
  | _, _, _, _ => none

/-- The result dict of `analyze_sentiment`. -/
structure SentimentInfo where
  polarity : ℚ
  subjectivity : ℚ
  sentiment_label : String
  sentiment_emoji : String
  sentiment_color : String
  sentiment_description : String
  deriving DecidableEq

/-- The text whose sentiment is estimated: the translation to English when
the diacritic heuristic fires and the translation succeeds, the original text
otherwise (the bare `except` makes any failure fall back to the original). -/
def blobSource (translate : String → Option String) (texto : String) : String :=
  if hasDiacritic texto then
    match translate texto with
    | some texto_ingles => texto_ingles
    | none => texto
  else texto

/-- The five-bucket if/elif ladder of `analyze_sentiment`. -/
def classifySentiment (polarity subjectivity : ℚ) : SentimentInfo :=
  if polarity > mkRat 3 10 then
    ⟨polarity, subjectivity, "Muito Positivo", "😊", "#2ecc71", "Fortemente positivo"⟩
  else if polarity > mkRat 1 10 then
    ⟨polarity, subjectivity, "Positivo", "🙂", "#27ae60", "Levemente positivo"⟩
  else if polarity > mkRat (-1) 10 then
    ⟨polarity, subjectivity, "Neutro", "😐", "#f39c12", "Equilibrado/Neutro"⟩
  else if polarity > mkRat (-3) 10 then
    ⟨polarity, subjectivity, "Negativo", "🙁", "#e67e22", "Levemente negativo"⟩
  else
    ⟨polarity, subjectivity, "Muito Negativo", "😞", "#e74c3c", "Fortemente negativo"⟩

/-- `analyze_sentiment(texto)`, parameterised by the external polarity and
subjectivity estimator `est` and the translator. -/
def analyze_sentiment (est : String → ℚ × ℚ) (translate : String → Option String)
    (texto : String) : SentimentInfo :=
  let blob := blobSource translate texto
  classifySentiment (est blob).1 (est blob).2

def insightReflexivo : String :=
  "🧠 **Texto reflexivo**: Predominância de elementos de pensamento e análise"

def insightAtivo : String :=
  "⚡ **Texto ativo**: Foco em ações, comportamentos e resultados"

def insightEquilibrio : String :=
  "⚖️ **Equilíbrio reflexão-ação**: Balanceamento entre pensar e agir"

def insightSubjetivo : String :=
  "🎭 **Abordagem subjetiva**: Ênfase em experiências pessoais, emoções e perspectivas individuais"

def insightObjetivo : String :=
  "📐 **Abordagem objetiva**: Foco em fatos, dados e análise imparcial"

def insightIntegrado : String :=
  "🔄 **Perspectiva integrada**: Combina elementos subjetivos e objetivos"

def insightTomPositivo : String :=
  "✅ **Tom positivo**: Linguagem otimista e construtiva"

def insightTomCritico : String :=
  "⚠️ **Tom crítico**: Linguagem cautelosa ou negativa"

def insightTomNeutro : String :=
  "🔍 **Tom neutro**: Abordagem equilibrada e factual"

def insightAltaSubjetividade : String :=
  "💭 **Alta subjetividade**: Forte presença de opiniões e perspectivas pessoais"

def insightBaixaSubjetividade : String :=
  "📊 **Baixa subjetividade**: Linguagem factual e impessoal"

/-- `generate_insights(sentiment_info, axes)`. -/
def generate_insights (sentiment_info : SentimentInfo) (axes : Axes) : List String :=
  let insights : List String := []
  let polarity := sentiment_info.polarity
  let subjectivity := sentiment_info.subjectivity
  let insights := insights ++
    [if axes.pensamento > 70 then insightReflexivo
     else if axes.acao > 70 then insightAtivo
     else insightEquilibrio]
  let insights := insights ++
    [if axes.subjetivo > 70 then insightSubjetivo
     else if axes.objetivo > 70 then insightObjetivo
     else insightIntegrado]
  let insights := insights ++
    [if polarity > mkRat 3 10 then insightTomPositivo
     else if polarity < mkRat (-3) 10 then insightTomCritico
     else insightTomNeutro]
  let insights :=
    if subjectivity > mkRat 7 10 then insights ++ [insightAltaSubjetividade]
    else if subjectivity < mkRat 3 10 then insights ++ [insightBaixaSubjetividade]
    else insights
  insights

/-! Helper lemmas about the association-list operations and the scoring fold. -/

theorem word_not_space (c : Char) (h : isWordChar c = true) : isSpaceChar c = false := by
  cases hx : isSpaceChar c
  · rfl
  · exfalso
    have hs := hx
    simp only [isSpaceChar, Char.isWhitespace, Bool.or_eq_true, decide_eq_true_eq] at hs
    rcases hs with ((h1 | h1) | h1) | h1 <;> subst h1 <;> exact absurd h (by decide)

theorem addScore_fst (s : List (String × ℕ)) (cat : String) (n : ℕ) :
    (addScore s cat n).map Prod.fst = s.map Prod.fst := by
  induction s with
  | nil => rfl
  | cons p rest ih =>
    obtain ⟨c, v⟩ := p
    by_cases hc : c = cat
    · simp [addScore, hc]
    · simp [addScore, hc, ih]

theorem addScore_zero (s : List (String × ℕ)) (cat : String) :
    addScore s cat 0 = s := by
  induction s with
  | nil => rfl
  | cons p rest ih =>
    obtain ⟨c, v⟩ := p
    by_cases hc : c = cat <;> simp [addScore, hc, ih]

theorem addScore_addScore (s : List (String × ℕ)) (cat : String) (a b : ℕ) :
    addScore (addScore s cat a) cat b = addScore s cat (a + b) := by
  induction s with
  | nil => rfl
  | cons p rest ih =>
    obtain ⟨c, v⟩ := p
    by_cases hc : c = cat
    · simp [addScore, hc, Nat.add_assoc]
    · simp [addScore, hc, ih]

theorem addScore_sum (s : List (String × ℕ)) (cat : String) (n : ℕ)
    (h : cat ∈ s.map Prod.fst) :
    ((addScore s cat n).map Prod.snd).sum = (s.map Prod.snd).sum + n := by
  induction s with
  | nil => simp at h
  | cons p rest ih =>
    obtain ⟨c, v⟩ := p
    by_cases hc : c = cat
    · simp [addScore, hc]
      omega
    · have h' : cat ∈ rest.map Prod.fst := by
        simp only [List.map_cons] at h
        rcases List.mem_cons.mp h with h1 | h1
        · exact absurd h1.symm hc
        · exact h1
      simp [addScore, hc, ih h']
      omega

theorem addScore_append (pre post : List (String × ℕ)) (cat : String) (n : ℕ)
    (h : cat ∉ pre.map Prod.fst) :
    addScore (pre ++ post) cat n = pre ++ addScore post cat n := by
  induction pre with
  | nil => rfl
  | cons p rest ih =>
    obtain ⟨c, v⟩ := p
    have hc : c ≠ cat := by
      intro hcc
      exact h (by simp [hcc])
    simp only [List.cons_append, addScore, hc, if_false]
    exact congrArg (List.cons (c, v)) (ih (fun hm => h (by simp [hm])))

theorem lookup_of_not_mem {β : Type} (m : List (String × β)) (k : String)
    (h : k ∉ m.map Prod.fst) : m.lookup k = none := by
  induction m with
  | nil => rfl
  | cons p rest ih =>
    obtain ⟨c, v⟩ := p
    have hc : k ≠ c := fun hk => h (by simp [hk])
    rw [List.lookup_cons]
    simp only [beq_eq_false_iff_ne.mpr hc]
    exact ih (fun hm => h (by simp [hm]))

theorem lookup_const {β : Type} (m : List (String × β)) (k : String) (v : β)
    (hall : ∀ p ∈ m, p.2 = v) (h : k ∈ m.map Prod.fst) : m.lookup k = some v := by
  induction m with
  | nil => simp at h
  | cons p rest ih =>
    obtain ⟨c, w⟩ := p
    rw [List.lookup_cons]
    by_cases hk : k = c
    · simp only [hk, beq_self_eq_true]
      exact congrArg some (hall (c, w) (by simp))
    · simp only [beq_eq_false_iff_ne.mpr hk]
      refine ih (fun p hp => hall p (by simp [hp])) ?_
      simp only [List.map_cons] at h
      rcases List.mem_cons.mp h with h1 | h1
      · exact absurd h1 hk
      · exact h1

theorem lookup_map_nodup {β γ : Type} (l : List (String × β)) (g : String × β → γ)
    (cat : String) (b : β) (hnd : (l.map Prod.fst).Nodup) (hmem : (cat, b) ∈ l) :
    (l.map (fun cp => (cp.1, g cp))).lookup cat = some (g (cat, b)) := by
  induction l with
  | nil => simp at hmem
  | cons p rest ih =>
    obtain ⟨c, w⟩ := p
    simp only [List.map_cons] at hnd ⊢
    rw [List.lookup_cons]
    rcases List.mem_cons.mp hmem with h1 | h1
    · injection h1 with e1 e2
      subst e1
      subst e2
      simp
    · have hk : cat ≠ c := by
        intro he
        subst he
        exact (List.nodup_cons.mp hnd).1 (List.mem_map_of_mem Prod.fst h1)
      simp only [beq_eq_false_iff_ne.mpr hk]
      exact ih (List.nodup_cons.mp hnd).2 h1

theorem scoreCategory_spec (t : String) (c : String) (kws : List String) :
    ∀ acc : List (String × ℕ) × ℕ,
      scoreCategory t acc (c, kws) =
        (addScore acc.1 c ((kws.map (fun p => countWholeWord p t)).sum),
         acc.2 + (kws.map (fun p => countWholeWord p t)).sum) := by
  induction kws with
  | nil =>
    intro acc
    simp [scoreCategory, addScore_zero]
  | cons p kws ih =>
    intro acc
    have step : scoreCategory t acc (c, p :: kws) =
        scoreCategory t (addScore acc.1 c (countWholeWord p t),
          acc.2 + countWholeWord p t) (c, kws) := rfl
    rw [step, ih]
    simp [addScore_addScore, Nat.add_assoc]

theorem foldl_scoreCategory_fst (t : String) (cats : List (String × List String)) :
    ∀ acc : List (String × ℕ) × ℕ,
      ((cats.foldl (scoreCategory t) acc).1).map Prod.fst = acc.1.map Prod.fst := by
  induction cats with
  | nil => intro acc; rfl
  | cons cp cats ih =>
    intro acc
    obtain ⟨c, kws⟩ := cp
    rw [List.foldl_cons, ih, scoreCategory_spec]
    exact addScore_fst ..

theorem analyze_categories_fst (texto : String) (cats : List (String × List String)) :
    ((analyze_categories texto cats).1).map Prod.fst = cats.map Prod.fst := by
  simp only [analyze_categories]
  rw [foldl_scoreCategory_fst]
  simp only [List.map_map]
  rfl

theorem foldl_scoreCategory_total (t : String) (cats : List (String × List String)) :
    ∀ acc : List (String × ℕ) × ℕ,
      (∀ cp ∈ cats, cp.1 ∈ acc.1.map Prod.fst) →
      ((cats.foldl (scoreCategory t) acc).1.map Prod.snd).sum + acc.2
        = (acc.1.map Prod.snd).sum + (cats.foldl (scoreCategory t) acc).2 := by
  induction cats with
  | nil => intro acc _; rfl
  | cons cp cats ih =>
    intro acc h
    obtain ⟨c, kws⟩ := cp
    rw [List.foldl_cons, scoreCategory_spec]
    have hmemc : c ∈ acc.1.map Prod.fst := h (c, kws) (by simp)
    have h' : ∀ cp ∈ cats, cp.1 ∈
        (addScore acc.1 c ((kws.map (fun p => countWholeWord p t)).sum),
          acc.2 + (kws.map (fun p => countWholeWord p t)).sum).1.map Prod.fst := by
      intro cp hcp
      simp only [addScore_fst]
      exact h cp (List.mem_cons_of_mem _ hcp)
    have hrec := ih (addScore acc.1 c ((kws.map (fun p => countWholeWord p t)).sum),
      acc.2 + (kws.map (fun p => countWholeWord p t)).sum) h'
    simp only [addScore_sum acc.1 c _ hmemc] at hrec
    omega

theorem foldl_scoreCategory_id (t : String) :
    ∀ cats : List (String × List String),
      (∀ cp ∈ cats, ∀ kw ∈ cp.2, countWholeWord kw t = 0) →
      ∀ acc, cats.foldl (scoreCategory t) acc = acc := by
  intro cats
  induction cats with
  | nil => intro _ acc; rfl
  | cons cp cats ih =>
    intro hz acc
    obtain ⟨c, kws⟩ := cp
    rw [List.foldl_cons, scoreCategory_spec]
    have hS : (kws.map (fun p => countWholeWord p t)).sum = 0 := by
      refine List.sum_eq_zero ?_
      intro x hx
      obtain ⟨kw, hkw, rfl⟩ := List.mem_map.mp hx
      exact hz (c, kws) (by simp) kw hkw
    rw [hS, addScore_zero]
    simpa using ih (fun cp h kw hk => hz cp (List.mem_cons_of_mem _ h) kw hk) acc

theorem foldl_scoreCategory_scores (t : String) :
    ∀ cats : List (String × List String), ∀ (pre : List (String × ℕ)) (T : ℕ),
      (cats.map Prod.fst).Nodup →
      (∀ k ∈ cats.map Prod.fst, k ∉ pre.map Prod.fst) →
      cats.foldl (scoreCategory t) (pre ++ cats.map (fun cp => (cp.1, 0)), T)
        = (pre ++ cats.map (fun cp => (cp.1, (cp.2.map (fun p => countWholeWord p t)).sum)),
           T + (cats.map (fun cp => (cp.2.map (fun p => countWholeWord p t)).sum)).sum) := by
  intro cats
  induction cats with
  | nil => intro pre T _ _; simp
  | cons cp cats ih =>
    intro pre T hnd hdis
    obtain ⟨c, kws⟩ := cp
    have hcpre : c ∉ pre.map Prod.fst := hdis c (by simp)
    simp only [List.map_cons] at hnd hdis ⊢
    rw [List.foldl_cons, scoreCategory_spec]
    simp only [List.cons_append] at *
    rw [show pre ++ (c, 0) :: cats.map (fun cp => (cp.1, 0))
          = pre ++ ((c, 0) :: cats.map (fun cp => (cp.1, 0))) from rfl]
    rw [addScore_append _ _ _ _ hcpre]
    have hhead : addScore ((c, 0) :: cats.map (fun cp => (cp.1, 0))) c
          ((kws.map (fun p => countWholeWord p t)).sum)
        = (c, (kws.map (fun p => countWholeWord p t)).sum) :: cats.map (fun cp => (cp.1, 0)) := by
      simp [addScore]
    rw [hhead]
    have hsplit : pre ++ (c, (kws.map (fun p => countWholeWord p t)).sum) ::
            cats.map (fun cp => (cp.1, 0))
        = (pre ++ [(c, (kws.map (fun p => countWholeWord p t)).sum)]) ++
            cats.map (fun cp => (cp.1, 0)) := by
      simp
    rw [hsplit]
    rw [ih (pre ++ [(c, (kws.map (fun p => countWholeWord p t)).sum)])
          (T + (kws.map (fun p => countWholeWord p t)).sum)
          (List.nodup_cons.mp hnd).2 ?_]
    · simp [List.append_assoc, Nat.add_assoc]
    · intro k hk
      have h1 : k ∉ pre.map Prod.fst := hdis k (List.mem_cons_of_mem _ hk)
      have h2 : k ≠ c := by
        intro hkc
        subst hkc
        exact (List.nodup_cons.mp hnd).1 hk
      simp [h1, h2]

theorem analyze_categories_scores (texto : String) (cats : List (String × List String))
    (hnd : (cats.map Prod.fst).Nodup) :
    analyze_categories texto cats
      = (cats.map (fun cp => (cp.1, (cp.2.map (fun p => countWholeWord p (clean texto))).sum)),
         (cats.map (fun cp => (cp.2.map (fun p => countWholeWord p (clean texto))).sum)).sum) := by
  have h := foldl_scoreCategory_scores (clean texto) cats [] 0 hnd (by simp)
  simpa [analyze_categories] using h

/-! Arithmetic helpers for the percentage and axis computations. -/

theorem axis_norm (a b : ℚ) (ha : 0 ≤ a) (hb : 0 ≤ b) (hab : 0 < a + b) :
    0 ≤ a / (a + b) * 100 ∧ a / (a + b) * 100 ≤ 100 ∧
    0 ≤ b / (a + b) * 100 ∧ b / (a + b) * 100 ≤ 100 ∧
    a / (a + b) * 100 + b / (a + b) * 100 = 100 := by
  have hne : a + b ≠ 0 := ne_of_gt hab
  refine ⟨?_, ?_, ?_, ?_, ?_⟩
  · exact mul_nonneg (div_nonneg ha (le_of_lt hab)) (by norm_num)
  · have h1 : a / (a + b) ≤ 1 := (div_le_one hab).mpr (by linarith)
    calc a / (a + b) * 100 ≤ 1 * 100 := mul_le_mul_of_nonneg_right h1 (by norm_num)
      _ = 100 := by norm_num
  · exact mul_nonneg (div_nonneg hb (le_of_lt hab)) (by norm_num)
  · have h1 : b / (a + b) ≤ 1 := (div_le_one hab).mpr (by linarith)
    calc b / (a + b) * 100 ≤ 1 * 100 := mul_le_mul_of_nonneg_right h1 (by norm_num)
      _ = 100 := by norm_num
  · field_simp
    ring

theorem sum_map_div_mul (l : List (String × ℕ)) (T : ℚ) :
    (l.map (fun cp => ((cp.2 : ℚ) / T) * 100)).sum
      = (((l.map Prod.snd).sum : ℕ) : ℚ) / T * 100 := by
  induction l with
  | nil => simp
  | cons p l ih =>
    simp only [List.map_cons, List.sum_cons, ih]
    push_cast
    ring

theorem classifySentiment_polarity (p s : ℚ) : (classifySentiment p s).polarity = p := by
  unfold classifySentiment
  split_ifs <;> rfl

theorem classifySentiment_subjectivity (p s : ℚ) :
    (classifySentiment p s).subjectivity = s := by
  unfold classifySentiment
  split_ifs <;> rfl

theorem analyze_sentiment_polarity (est : String → ℚ × ℚ) (tr : String → Option String)
    (texto : String) :
    (analyze_sentiment est tr texto).polarity = (est (blobSource tr texto)).1 := by
  simp only [analyze_sentiment]
  exact classifySentiment_polarity ..

theorem analyze_sentiment_subjectivity (est : String → ℚ × ℚ)
    (tr : String → Option String) (texto : String) :
    (analyze_sentiment est tr texto).subjectivity = (est (blobSource tr texto)).2 := by
  simp only [analyze_sentiment]
  exact classifySentiment_subjectivity ..

theorem axis_branch (x y : ℚ) (hx : 0 ≤ x) (hy : 0 ≤ y) :
    (if x + y > 0 then x / (x + y) * 100 else 50) +
      (if x + y > 0 then y / (x + y) * 100 else 50) = 100 ∧
    0 ≤ (if x + y > 0 then x / (x + y) * 100 else 50) ∧
    (if x + y > 0 then x / (x + y) * 100 else 50) ≤ 100 ∧
    0 ≤ (if x + y > 0 then y / (x + y) * 100 else 50) ∧
    (if x + y > 0 then y / (x + y) * 100 else 50) ≤ 100 := by
  split_ifs with h
  · obtain ⟨b1, b2, b3, b4, b5⟩ := axis_norm x y hx hy h
    exact ⟨b5, b1, b2, b3, b4⟩
  · norm_num

/-! The claim theorems. -/

/-- Claim C1, counterexample: the claim says polarity exactly `-0.1` is
classified Neutral, but the code classifies it `Negativo` (the `elif
polarity > -0.1` test is strict). -/
theorem analyze_sentiment_boundary_counterexample :
    (analyze_sentiment (fun _ => (mkRat (-1) 10, 0)) (fun _ => none) "texto").sentiment_label
        = "Negativo" ∧
    "Negativo" ≠ "Neutro" :=
  ⟨by decide, by decide⟩

/-- Claim C1 (amended): the label of `analyze_sentiment` follows the 5-bucket
partition with buckets `>0.3` Muito Positivo, `(0.1, 0.3]` Positivo,
`(-0.1, 0.1]` Neutro, `(-0.3, -0.1]` Negativo and `≤ -0.3` Muito Negativo:
exactly 0.3 is Positivo and exactly 0.1 is Neutro (as the original claim
says), but exactly -0.1 is Negativo and exactly -0.3 is Muito Negativo
(the original claim has the two negative boundaries on the wrong side). -/
theorem analyze_sentiment_bucket_partition (est : String → ℚ × ℚ)
    (tr : String → Option String) (texto : String) :
    ((analyze_sentiment est tr texto).polarity > mkRat 3 10 →
        (analyze_sentiment est tr texto).sentiment_label = "Muito Positivo") ∧
    (mkRat 1 10 < (analyze_sentiment est tr texto).polarity ∧
        (analyze_sentiment est tr texto).polarity ≤ mkRat 3 10 →
        (analyze_sentiment est tr texto).sentiment_label = "Positivo") ∧
    (mkRat (-1) 10 < (analyze_sentiment est tr texto).polarity ∧
        (analyze_sentiment est tr texto).polarity ≤ mkRat 1 10 →
        (analyze_sentiment est tr texto).sentiment_label = "Neutro") ∧
    (mkRat (-3) 10 < (analyze_sentiment est tr texto).polarity ∧
        (analyze_sentiment est tr texto).polarity ≤ mkRat (-1) 10 →
        (analyze_sentiment est tr texto).sentiment_label = "Negativo") ∧
    ((analyze_sentiment est tr texto).polarity ≤ mkRat (-3) 10 →
        (analyze_sentiment est tr texto).sentiment_label = "Muito Negativo") := by
  have hq1 : mkRat (-3) 10 < mkRat (-1) 10 := by decide
  have hq2 : mkRat (-1) 10 < mkRat 1 10 := by decide
  have hq3 : mkRat 1 10 < mkRat 3 10 := by decide
  simp only [analyze_sentiment, classifySentiment_polarity]
  generalize (est (blobSource tr texto)).1 = p
  generalize (est (blobSource tr texto)).2 = s
  unfold classifySentiment
  split_ifs with h1 h2 h3 h4
  · exact ⟨fun _ => rfl,
      fun h => absurd h1 (not_lt.mpr h.2),
      fun h => absurd (lt_trans hq3 h1) (not_lt.mpr h.2),
      fun h => absurd (lt_trans hq2 (lt_trans hq3 h1)) (not_lt.mpr h.2),
      fun h => absurd (lt_trans hq1 (lt_trans hq2 (lt_trans hq3 h1))) (not_lt.mpr h)⟩
  · exact ⟨fun h => absurd h h1,
      fun _ => rfl,
      fun h => absurd h2 (not_lt.mpr h.2),
      fun h => absurd (lt_trans hq2 h2) (not_lt.mpr h.2),
      fun h => absurd (lt_trans hq1 (lt_trans hq2 h2)) (not_lt.mpr h)⟩
  · exact ⟨fun h => absurd h h1,
      fun h => absurd h.1 h2,
      fun _ => rfl,
      fun h => absurd h3 (not_lt.mpr h.2),
      fun h => absurd (lt_trans hq1 h3) (not_lt.mpr h)⟩
  · exact ⟨fun h => absurd h h1,
      fun h => absurd h.1 h2,
      fun h => absurd h.1 h3,
      fun _ => rfl,
      fun h => absurd h4 (not_lt.mpr h)⟩
  · exact ⟨fun h => absurd h h1,
      fun h => absurd h.1 h2,
      fun h => absurd h.1 h3,
      fun h => absurd h.1 h4,
      fun _ => rfl⟩

/-- Witness for Claim C1: polarity 0.2 lies in `(0.1, 0.3]` and is labelled
Positivo. -/
theorem analyze_sentiment_bucket_partition_witness :
    (mkRat 1 10 <
        (analyze_sentiment (fun _ => (mkRat 2 10, 0)) (fun _ => none) "abc").polarity ∧
      (analyze_sentiment (fun _ => (mkRat 2 10, 0)) (fun _ => none) "abc").polarity
        ≤ mkRat 3 10) ∧
    (analyze_sentiment (fun _ => (mkRat 2 10, 0)) (fun _ => none) "abc").sentiment_label
      = "Positivo" := by
  have hp : mkRat 1 10 <
      (analyze_sentiment (fun _ => (mkRat 2 10, 0)) (fun _ => none) "abc").polarity ∧
      (analyze_sentiment (fun _ => (mkRat 2 10, 0)) (fun _ => none) "abc").polarity
        ≤ mkRat 3 10 := ⟨by decide, by decide⟩
  exact ⟨hp, (analyze_sentiment_bucket_partition (fun _ => (mkRat 2 10, 0))
    (fun _ => none) "abc").2.1 hp⟩

/-- Claim C2: for every percentage mapping that binds the four category keys
to nonnegative values, `calculate_axes` succeeds and the result satisfies
`pensamento + acao = 100`, `subjetivo + objetivo = 100` (both exactly, the
computation is exact rational arithmetic), with all four fields in `[0, 100]`;
the two axis equations hold independently (they are separate conjuncts proved
from separate normalizations). -/
theorem calculate_axes_sum_and_bounds (percentuais : List (String × ℚ))
    (ps po ac ap : ℚ)
    (h1 : percentuais.lookup "Pensamento Subjetivo" = some ps)
    (h2 : percentuais.lookup "Pensamento Objetivo" = some po)
    (h3 : percentuais.lookup "Ação Comportamental" = some ac)
    (h4 : percentuais.lookup "Ação Prática" = some ap)
    (hps : 0 ≤ ps) (hpo : 0 ≤ po) (hac : 0 ≤ ac) (hap : 0 ≤ ap) :
    ∃ a : Axes, calculate_axes percentuais = some a ∧
      a.pensamento + a.acao = 100 ∧ a.subjetivo + a.objetivo = 100 ∧
      0 ≤ a.pensamento ∧ a.pensamento ≤ 100 ∧ 0 ≤ a.acao ∧ a.acao ≤ 100 ∧
      0 ≤ a.subjetivo ∧ a.subjetivo ≤ 100 ∧ 0 ≤ a.objetivo ∧ a.objetivo ≤ 100 := by
  simp only [calculate_axes, h1, h2, h3, h4]
  refine ⟨_, rfl, ?_⟩
  dsimp only
  obtain ⟨e1, e2, e3, e4, e5⟩ := axis_branch (ps + po) (ac + ap) (by linarith) (by linarith)
  obtain ⟨f1, f2, f3, f4, f5⟩ := axis_branch (ps + ac) (po + ap) (by linarith) (by linarith)
  exact ⟨e1, f1, e2, e3, e4, e5, f2, f3, f4, f5⟩

/-- Witness for Claim C2 at the uniform 25/25/25/25 percentage mapping. -/
theorem calculate_axes_sum_and_bounds_witness :
    (0:ℚ) ≤ 25 ∧
    ∃ a : Axes,
      calculate_axes [("Pensamento Subjetivo", (25:ℚ)), ("Pensamento Objetivo", 25),
          ("Ação Comportamental", 25), ("Ação Prática", 25)] = some a ∧
      a.pensamento + a.acao = 100 ∧ a.subjetivo + a.objetivo = 100 ∧
      0 ≤ a.pensamento ∧ a.pensamento ≤ 100 ∧ 0 ≤ a.acao ∧ a.acao ≤ 100 ∧
      0 ≤ a.subjetivo ∧ a.subjetivo ≤ 100 ∧ 0 ≤ a.objetivo ∧ a.objetivo ≤ 100 :=
  ⟨by decide, calculate_axes_sum_and_bounds _ 25 25 25 25
    (by decide) (by decide) (by decide) (by decide)
    (by decide) (by decide) (by decide) (by decide)⟩

/-- Claim C3: `calculate_percentages` maps each score `n` to
`100 * n / total` when the total is positive, maps every category to 0 when
the total is 0 (the function is total, no division fault), and the sum of the
returned percentages is exactly 100 or exactly 0. -/
theorem calculate_percentages_spec (scores : List (String × ℕ)) :
    ((scores.map Prod.snd).sum = 0 →
        ∀ p ∈ calculate_percentages scores, p.2 = 0) ∧
    ((scores.map Prod.snd).sum > 0 →
        ∀ (c : String) (n : ℕ), (c, n) ∈ scores →
          (c, 100 * (n : ℚ) / ((scores.map Prod.snd).sum : ℚ))
            ∈ calculate_percentages scores) ∧
    (((calculate_percentages scores).map Prod.snd).sum = 100 ∨
        ((calculate_percentages scores).map Prod.snd).sum = 0) := by
  refine ⟨?_, ?_, ?_⟩
  · intro hT p hp
    simp only [calculate_percentages, hT] at hp
    obtain ⟨cp, hcp, rfl⟩ := List.mem_map.mp hp
    simp
  · intro hT c n hmem
    have hval : 100 * (n : ℚ) / ((scores.map Prod.snd).sum : ℚ)
        = ((n : ℚ) / ((scores.map Prod.snd).sum : ℚ)) * 100 := by ring
    have hmm := List.mem_map_of_mem
      (fun cp : String × ℕ => (cp.1, if (scores.map Prod.snd).sum > 0 then
        ((cp.2 : ℚ) / ((scores.map Prod.snd).sum : ℚ)) * 100 else 0)) hmem
    simp only [if_pos hT] at hmm
    simp only [calculate_percentages, if_pos hT]
    rw [hval]
    exact hmm
  · by_cases hT : (scores.map Prod.snd).sum = 0
    · right
      refine List.sum_eq_zero ?_
      intro x hx
      simp only [calculate_percentages, hT, List.map_map] at hx
      obtain ⟨cp, hcp, rfl⟩ := List.mem_map.mp hx
      simp
    · left
      have hTpos : 0 < (scores.map Prod.snd).sum := Nat.pos_of_ne_zero hT
      have hTQ : (((scores.map Prod.snd).sum : ℕ) : ℚ) ≠ 0 := Nat.cast_ne_zero.mpr hT
      simp only [calculate_percentages, List.map_map]
      have hfun : (Prod.snd ∘ fun cp : String × ℕ => (cp.1,
            if (scores.map Prod.snd).sum > 0 then
              ((cp.2 : ℚ) / ((scores.map Prod.snd).sum : ℚ)) * 100 else 0))
          = fun cp : String × ℕ => ((cp.2 : ℚ) / ((scores.map Prod.snd).sum : ℚ)) * 100 := by
        funext cp
        simp [hTpos]
      rw [hfun, sum_map_div_mul, div_self hTQ]
      norm_num

/-- Witness for Claim C3 at the score mapping a=1, b=3. -/
theorem calculate_percentages_spec_witness :
    (([("a", 1), ("b", 3)] : List (String × ℕ)).map Prod.snd).sum > 0 ∧
    ("a", 100 * ((1:ℕ) : ℚ) /
        (((([("a", 1), ("b", 3)] : List (String × ℕ)).map Prod.snd).sum : ℕ) : ℚ))
      ∈ calculate_percentages [("a", 1), ("b", 3)] :=
  ⟨by decide, (calculate_percentages_spec [("a", 1), ("b", 3)]).2.1 (by decide)
    "a" 1 (by decide)⟩

/-- Claim C4: on a lexicon that binds all four category keys and a text with
no whole-word occurrence of any keyword, the pipeline yields all-zero
RawScores, total 0, all-zero CategoryPercentages, and the exact 50/50/50/50
axis fallback, with no error. -/
theorem zero_keyword_defaults (texto : String) (cats : List (String × List String))
    (hps : "Pensamento Subjetivo" ∈ cats.map Prod.fst)
    (hpo : "Pensamento Objetivo" ∈ cats.map Prod.fst)
    (hac : "Ação Comportamental" ∈ cats.map Prod.fst)
    (hap : "Ação Prática" ∈ cats.map Prod.fst)
    (hzero : ∀ cp ∈ cats, ∀ kw ∈ cp.2, countWholeWord kw (clean texto) = 0) :
    (∀ p ∈ (analyze_categories texto cats).1, p.2 = 0) ∧
    (analyze_categories texto cats).2 = 0 ∧
    (∀ p ∈ calculate_percentages (analyze_categories texto cats).1, p.2 = 0) ∧
    calculate_axes (calculate_percentages (analyze_categories texto cats).1)
      = some ⟨50, 50, 50, 50⟩ := by
  have hfix : analyze_categories texto cats = (cats.map (fun cp => (cp.1, 0)), 0) := by
    simp only [analyze_categories]
    exact foldl_scoreCategory_id (clean texto) cats hzero _
  rw [hfix]
  have htot : ((cats.map (fun cp => (cp.1, 0))).map Prod.snd).sum = 0 := by
    refine List.sum_eq_zero ?_
    intro x hx
    simp only [List.map_map] at hx
    obtain ⟨cp, _, rfl⟩ := List.mem_map.mp hx
    rfl
  have hvals : ∀ p ∈ calculate_percentages (cats.map (fun cp => (cp.1, 0))), p.2 = (0:ℚ) := by
    intro p hp
    simp only [calculate_percentages, htot] at hp
    obtain ⟨cp, _, rfl⟩ := List.mem_map.mp hp
    simp
  have hkeys : (calculate_percentages (cats.map (fun cp => (cp.1, 0)))).map Prod.fst
      = cats.map Prod.fst := by
    simp only [calculate_percentages, List.map_map]
    rfl
  have l1 : (calculate_percentages (cats.map (fun cp => (cp.1, 0)))).lookup
      "Pensamento Subjetivo" = some 0 :=
    lookup_const _ _ _ hvals (by rw [hkeys]; exact hps)
  have l2 : (calculate_percentages (cats.map (fun cp => (cp.1, 0)))).lookup
      "Pensamento Objetivo" = some 0 :=
    lookup_const _ _ _ hvals (by rw [hkeys]; exact hpo)
  have l3 : (calculate_percentages (cats.map (fun cp => (cp.1, 0)))).lookup
      "Ação Comportamental" = some 0 :=
    lookup_const _ _ _ hvals (by rw [hkeys]; exact hac)
  have l4 : (calculate_percentages (cats.map (fun cp => (cp.1, 0)))).lookup
      "Ação Prática" = some 0 :=
    lookup_const _ _ _ hvals (by rw [hkeys]; exact hap)
  refine ⟨?_, rfl, hvals, ?_⟩
  · intro p hp
    obtain ⟨cp, _, rfl⟩ := List.mem_map.mp hp
    rfl
  · simp only [calculate_axes, l1, l2, l3, l4]
    norm_num

/-- Witness for Claim C4: a four-key lexicon and a text containing none of
its keywords. -/
theorem zero_keyword_defaults_witness :
    countWholeWord "penso" (clean "um texto sem chaves") = 0 ∧
    calculate_axes (calculate_percentages (analyze_categories "um texto sem chaves"
        [("Pensamento Subjetivo", ["penso"]), ("Pensamento Objetivo", ["dados"]),
         ("Ação Comportamental", ["diálogo"]), ("Ação Prática", ["execução"])]).1)
      = some ⟨50, 50, 50, 50⟩ :=
  ⟨by decide, (zero_keyword_defaults "um texto sem chaves" _
    (by decide) (by decide) (by decide) (by decide) (by decide)).2.2.2⟩

theorem calculate_axes_none_of_lookup_none (m : List (String × ℚ))
    (h : m.lookup "Pensamento Subjetivo" = none ∨ m.lookup "Pensamento Objetivo" = none ∨
         m.lookup "Ação Comportamental" = none ∨ m.lookup "Ação Prática" = none) :
    calculate_axes m = none := by
  unfold calculate_axes
  rcases e1 : m.lookup "Pensamento Subjetivo" with _ | ps <;>
    rcases e2 : m.lookup "Pensamento Objetivo" with _ | po <;>
      rcases e3 : m.lookup "Ação Comportamental" with _ | ac <;>
        rcases e4 : m.lookup "Ação Prática" with _ | ap <;>
          try rfl
  simp only [e1, e2, e3, e4] at h
  simp at h

/-- Claim C6, counterexample: with a lexicon holding only the key
"Pensamento Subjetivo", scoring runs to completion (it returns the score 1
for the keyword "penso") and only afterwards does the axis computation fail
on the missing keys, so the error is not raised before scoring begins. -/
theorem missing_key_scoring_runs_then_axes_fail :
    analyze_categories "penso logo existo" [("Pensamento Subjetivo", ["penso"])]
        = ([("Pensamento Subjetivo", 1)], 1) ∧
    calculate_axes (calculate_percentages
        (analyze_categories "penso logo existo" [("Pensamento Subjetivo", ["penso"])]).1)
      = none :=
  ⟨by decide, by decide⟩

/-- Claim C6 (amended): for every lexicon missing at least one of the four
expected category keys, the pipeline does fail (the axis computation raises
`KeyError`, modelled as `none`) and never produces a complete result — but
the failure occurs in `calculate_axes`, after scoring and percentage
computation have already run, not before any scoring begins. -/
theorem missing_category_key_axes_none (texto : String)
    (cats : List (String × List String))
    (h : "Pensamento Subjetivo" ∉ cats.map Prod.fst ∨
         "Pensamento Objetivo" ∉ cats.map Prod.fst ∨
         "Ação Comportamental" ∉ cats.map Prod.fst ∨
         "Ação Prática" ∉ cats.map Prod.fst) :
    calculate_axes (calculate_percentages (analyze_categories texto cats).1) = none := by
  have hfst : (calculate_percentages (analyze_categories texto cats).1).map Prod.fst
      = cats.map Prod.fst := by
    rw [← analyze_categories_fst texto cats]
    simp only [calculate_percentages, List.map_map]
    rfl
  refine calculate_axes_none_of_lookup_none _ ?_
  rcases h with h | h | h | h
  · exact Or.inl (lookup_of_not_mem _ _ (by rw [hfst]; exact h))
  · exact Or.inr (Or.inl (lookup_of_not_mem _ _ (by rw [hfst]; exact h)))
  · exact Or.inr (Or.inr (Or.inl (lookup_of_not_mem _ _ (by rw [hfst]; exact h))))
  · exact Or.inr (Or.inr (Or.inr (lookup_of_not_mem _ _ (by rw [hfst]; exact h))))

/-- Witness for Claim C6 at a one-key lexicon. -/
theorem missing_category_key_axes_none_witness :
    "Pensamento Objetivo" ∉ ([("Pensamento Subjetivo", ["penso"])].map Prod.fst) ∧
    calculate_axes (calculate_percentages
        (analyze_categories "oi" [("Pensamento Subjetivo", ["penso"])]).1) = none :=
  ⟨by decide, missing_category_key_axes_none "oi" _ (Or.inr (Or.inl (by decide)))⟩

/-- Claim C7, counterexample: the claim says an empty lexicon yields a
well-defined degenerate result rather than an uncaught error, but the
pipeline raises `KeyError` (modelled `none`) in `calculate_axes`. -/
theorem empty_lexicon_counterexample :
    calculate_axes (calculate_percentages (analyze_categories "ola" []).1) = none := by
  decide

/-- Claim C7 (amended): an empty lexicon yields the degenerate all-zero
RawScores with total 0 and an empty percentage mapping from the scorer and
normalizer, but the full pipeline then raises `KeyError` (modelled `none`)
when `calculate_axes` accesses the four category keys, so the call is not
error-free. -/
theorem empty_lexicon_fails_at_axes (texto : String) :
    analyze_categories texto [] = ([], 0) ∧
    calculate_percentages (analyze_categories texto []).1 = [] ∧
    calculate_axes (calculate_percentages (analyze_categories texto []).1) = none :=
  ⟨rfl, rfl, rfl⟩

/-- Claim C8: `generate_insights` returns 3 or 4 strings, a 4th exactly when
subjectivity is above 0.7 or below 0.3, in the fixed order Thought/Action
insight (70% three-way branching), Subjective/Objective insight (same
branching), sentiment-tone insight (`>0.3` positive, `<-0.3` critical, else
neutral) and then the optional subjectivity insight. -/
theorem generate_insights_spec (si : SentimentInfo) (axes : Axes) :
    ((generate_insights si axes).length = 3 ∨ (generate_insights si axes).length = 4) ∧
    ((generate_insights si axes).length = 4 ↔
      (si.subjectivity > mkRat 7 10 ∨ si.subjectivity < mkRat 3 10)) ∧
    (generate_insights si axes)[0]? = some (if axes.pensamento > 70 then insightReflexivo
        else if axes.acao > 70 then insightAtivo else insightEquilibrio) ∧
    (generate_insights si axes)[1]? = some (if axes.subjetivo > 70 then insightSubjetivo
        else if axes.objetivo > 70 then insightObjetivo else insightIntegrado) ∧
    (generate_insights si axes)[2]? = some (if si.polarity > mkRat 3 10 then insightTomPositivo
        else if si.polarity < mkRat (-3) 10 then insightTomCritico else insightTomNeutro) ∧
    (generate_insights si axes)[3]? =
      (if si.subjectivity > mkRat 7 10 then some insightAltaSubjetividade
       else if si.subjectivity < mkRat 3 10 then some insightBaixaSubjetividade else none) := by
  simp only [generate_insights]
  by_cases hs1 : si.subjectivity > mkRat 7 10
  · simp only [if_pos hs1]
    exact ⟨Or.inr rfl, ⟨fun _ => Or.inl hs1, fun _ => rfl⟩, rfl, rfl, rfl, rfl⟩
  · by_cases hs2 : si.subjectivity < mkRat 3 10
    · simp only [if_neg hs1, if_pos hs2]
      exact ⟨Or.inr rfl, ⟨fun _ => Or.inr hs2, fun _ => rfl⟩, rfl, rfl, rfl, rfl⟩
    · simp only [if_neg hs1, if_neg hs2]
      refine ⟨Or.inl rfl, ⟨fun h => absurd h (by simp), fun h => ?_⟩, rfl, rfl, rfl, rfl⟩
      rcases h with h | h
      · exact absurd h hs1
      · exact absurd h hs2

/-- Witness for Claim C8 at a neutral input. -/
theorem generate_insights_spec_witness :
    (generate_insights ⟨0, 0, "", "", "", ""⟩ ⟨50, 50, 50, 50⟩).length = 3 ∨
    (generate_insights ⟨0, 0, "", "", "", ""⟩ ⟨50, 50, 50, 50⟩).length = 4 :=
  (generate_insights_spec ⟨0, 0, "", "", "", ""⟩ ⟨50, 50, 50, 50⟩).1

/-- Claim C9: when the text contains one of the diacritics é á ã ç õ, the
classifier attempts translation first (a successful translation is what gets
scored), and when the translation fails (`none`) the sentiment is estimated
on the original untranslated text; in both cases a normal `SentimentInfo` is
returned, the failure is never propagated. -/
theorem sentiment_translation_fallback (est : String → ℚ × ℚ)
    (tr : String → Option String) (texto : String) :
    (hasDiacritic texto = true → tr texto = none →
      (analyze_sentiment est tr texto).polarity = (est texto).1 ∧
      (analyze_sentiment est tr texto).subjectivity = (est texto).2) ∧
    (hasDiacritic texto = true → ∀ t2, tr texto = some t2 →
      (analyze_sentiment est tr texto).polarity = (est t2).1 ∧
      (analyze_sentiment est tr texto).subjectivity = (est t2).2) := by
  constructor
  · intro hd htr
    have hb : blobSource tr texto = texto := by
      simp [blobSource, hd, htr]
    rw [analyze_sentiment_polarity, analyze_sentiment_subjectivity, hb]
    exact ⟨rfl, rfl⟩
  · intro hd t2 htr
    have hb : blobSource tr texto = t2 := by
      simp [blobSource, hd, htr]
    rw [analyze_sentiment_polarity, analyze_sentiment_subjectivity, hb]
    exact ⟨rfl, rfl⟩

/-- Witness for Claim C9: the text "é" triggers the diacritic heuristic, the
translator fails, and the estimator is applied to the original text. -/
theorem sentiment_translation_fallback_witness :
    hasDiacritic "é" = true ∧
    (analyze_sentiment (fun s => ((s.length : ℚ), 0)) (fun _ => none) "é").polarity
      = ((fun s : String => ((s.length : ℚ), 0)) "é").1 :=
  ⟨by decide, ((sentiment_translation_fallback (fun s => ((s.length : ℚ), 0))
    (fun _ => none) "é").1 (by decide) rfl).1⟩

/-- Claim C10: the grand total `total_palavras_chave` returned by
`analyze_categories` equals the sum of the per-category scores it returns,
so the total recomputed by `calculate_percentages` agrees with it. -/
theorem analyze_categories_total_eq_sum (texto : String)
    (cats : List (String × List String)) :
    (analyze_categories texto cats).2
      = ((analyze_categories texto cats).1.map Prod.snd).sum := by
  simp only [analyze_categories]
  have hmem : ∀ cp ∈ cats, cp.1 ∈ ((cats.map (fun cp => (cp.1, 0))).map Prod.fst :
      List String) := by
    intro cp hcp
    simp only [List.map_map]
    exact List.mem_map.mpr ⟨cp, hcp, rfl⟩
  have h := foldl_scoreCategory_total (clean texto) cats
    (cats.map (fun cp => (cp.1, 0)), 0) hmem
  have hz : ((cats.map (fun cp => (cp.1, 0))).map Prod.snd).sum = 0 := by
    refine List.sum_eq_zero ?_
    intro x hx
    simp only [List.map_map] at hx
    obtain ⟨cp, _, rfl⟩ := List.mem_map.mp hx
    rfl
  dsimp only at h
  rw [hz] at h
  omega

/-! Whole-word matching: the `re.findall` scanner counts exactly the maximal
word-character runs ("words") of the cleaned text that are equal to the
keyword. -/

theorem if_bool_true {α : Type} (a b : α) : (if (true : Bool) then a else b) = a := rfl

theorem if_bool_false {α : Type} (a b : α) : (if (false : Bool) then a else b) = b := rfl

theorem countAux_nil (kw : List Char) (p : Bool) (skip : ℕ) :
    countAux kw p skip [] = 0 := rfl

theorem countAux_zero_cons (kw : List Char) (p : Bool) (c : Char) (rest : List Char) :
    countAux kw p 0 (c :: rest) =
      if matchAt kw p (c :: rest) then
        1 + countAux kw (isWordChar c) (kw.length - 1) rest
      else countAux kw (isWordChar c) 0 rest := rfl

theorem countAux_zero_cons_pos (kw : List Char) (p : Bool) (c : Char) (rest : List Char)
    (h : matchAt kw p (c :: rest) = true) :
    countAux kw p 0 (c :: rest)
      = 1 + countAux kw (isWordChar c) (kw.length - 1) rest := by
  rw [countAux_zero_cons, h]
  rfl

theorem countAux_zero_cons_neg (kw : List Char) (p : Bool) (c : Char) (rest : List Char)
    (h : matchAt kw p (c :: rest) = false) :
    countAux kw p 0 (c :: rest) = countAux kw (isWordChar c) 0 rest := by
  rw [countAux_zero_cons, h]
  rfl

theorem countAux_skip (kw : List Char) :
    ∀ (l t : List Char) (p : Bool), (∀ c ∈ l, isWordChar c = true) → l ≠ [] →
      countAux kw p l.length (l ++ t) = countAux kw true 0 t := by
  intro l
  induction l with
  | nil => intro t p _ h; exact absurd rfl h
  | cons c l ih =>
    intro t p hall _
    have hstep : countAux kw p (c :: l).length ((c :: l) ++ t)
        = countAux kw (isWordChar c) l.length (l ++ t) := rfl
    rw [hstep]
    by_cases hl : l = []
    · subst hl
      rw [hall c (by simp)]
      rfl
    · exact ih t (isWordChar c) (fun x hx => hall x (by simp [hx])) hl

theorem dropWhile_head_not (q : Char → Bool) :
    ∀ (l : List Char) (d : Char) (t : List Char), l.dropWhile q = d :: t → q d = false := by
  intro l
  induction l with
  | nil => intro d t h; simp at h
  | cons c l ih =>
    intro d t h
    by_cases hc : q c
    · rw [List.dropWhile_cons_of_pos hc] at h
      exact ih d t h
    · rw [List.dropWhile_cons_of_neg hc] at h
      simp only [Bool.not_eq_true] at hc
      injection h with h1 _
      subst h1
      exact hc

theorem drop_length_takeWhile (q : Char → Bool) (l : List Char) :
    l.drop (l.takeWhile q).length = l.dropWhile q := by
  nth_rewrite 2 [← List.takeWhile_append_dropWhile q l]
  exact List.drop_left _ _

theorem dropWhile_eq_self_of_takeWhile_eq_nil (q : Char → Bool) (l : List Char)
    (h : l.takeWhile q = []) : l.dropWhile q = l := by
  rw [← drop_length_takeWhile q l, h]
  rfl

theorem takeWhile_append_all (q : Char → Bool) :
    ∀ l t : List Char, (∀ c ∈ l, q c = true) →
      (l ++ t).takeWhile q = l ++ t.takeWhile q := by
  intro l
  induction l with
  | nil => intro t _; rfl
  | cons c l ih =>
    intro t hall
    rw [List.cons_append, List.takeWhile_cons_of_pos (hall c (by simp))]
    rw [ih t (fun x hx => hall x (by simp [hx]))]
    rfl

theorem dropWhile_append_all (q : Char → Bool) :
    ∀ l t : List Char, (∀ c ∈ l, q c = true) →
      (l ++ t).dropWhile q = t.dropWhile q := by
  intro l
  induction l with
  | nil => intro t _; rfl
  | cons c l ih =>
    intro t hall
    rw [List.cons_append, List.dropWhile_cons_of_pos (hall c (by simp))]
    exact ih t (fun x hx => hall x (by simp [hx]))

theorem takeWhile_isPrefixOf (q : Char → Bool) :
    ∀ l : List Char, (l.takeWhile q).isPrefixOf l = true := by
  intro l
  induction l with
  | nil => rfl
  | cons c l ih =>
    by_cases hc : q c
    · rw [List.takeWhile_cons_of_pos hc, List.isPrefixOf_cons₂]
      simp [ih]
    · rw [List.takeWhile_cons_of_neg hc]
      simp

theorem isPrefixOf_append_drop :
    ∀ l₁ l₂ : List Char, l₁.isPrefixOf l₂ = true → l₂ = l₁ ++ l₂.drop l₁.length := by
  intro l₁
  induction l₁ with
  | nil => intro l₂ _; rfl
  | cons a l₁ ih =>
    intro l₂ hp
    rcases l₂ with _ | ⟨b, l₂⟩
    · simp at hp
    · rw [List.isPrefixOf_cons₂, Bool.and_eq_true, beq_iff_eq] at hp
      obtain ⟨rfl, hp2⟩ := hp
      simp only [List.length_cons, List.drop_succ_cons, List.cons_append]
      exact congrArg (List.cons a) (ih l₂ hp2)

theorem wordTokens_nil : wordTokens [] = [] := by
  unfold wordTokens
  rfl

theorem wordTokens_cons_pos (c : Char) (rest : List Char) (h : isWordChar c = true) :
    wordTokens (c :: rest)
      = (c :: rest.takeWhile isWordChar) :: wordTokens (rest.dropWhile isWordChar) := by
  conv_lhs => unfold wordTokens
  simp [h]

theorem wordTokens_cons_neg (c : Char) (rest : List Char) (h : isWordChar c = false) :
    wordTokens (c :: rest) = wordTokens rest := by
  conv_lhs => unfold wordTokens
  simp [h]

theorem wordTokens_word_append (kw t : List Char) (hne : kw ≠ [])
    (hall : ∀ c ∈ kw, isWordChar c = true) (ht : t.takeWhile isWordChar = []) :
    wordTokens (kw ++ t) = kw :: wordTokens t := by
  rcases kw with _ | ⟨k, ks⟩
  · exact absurd rfl hne
  · rw [List.cons_append, wordTokens_cons_pos k (ks ++ t) (hall k (by simp))]
    rw [takeWhile_append_all isWordChar ks t (fun c hc => hall c (by simp [hc])), ht]
    rw [dropWhile_append_all isWordChar ks t (fun c hc => hall c (by simp [hc]))]
    rw [dropWhile_eq_self_of_takeWhile_eq_nil isWordChar t ht]
    simp

theorem countAux_eq_tokens (k : Char) (ks : List Char)
    (hkw : ∀ c ∈ k :: ks, isWordChar c = true) :
    ∀ (n : ℕ) (s : List Char), s.length ≤ n →
      (∀ c ∈ s, isWordChar c = true ∨ isSpaceChar c = true) →
      ∀ p : Bool,
        countAux (k :: ks) p 0 s =
          (wordTokens (if p then s.dropWhile isWordChar else s)).count (k :: ks) := by
  have hwk : isWordChar k = true := hkw k (by simp)
  intro n
  induction n with
  | zero =>
    intro s hlen _ p
    have hs : s = [] := List.length_eq_zero.mp (Nat.le_zero.mp hlen)
    subst hs
    cases p <;> simp [countAux_nil, wordTokens_nil]
  | succ n ih =>
    intro s hlen hchars p
    rcases s with _ | ⟨c, rest⟩
    · cases p <;> simp [countAux_nil, wordTokens_nil]
    · have hlen' : rest.length ≤ n := by
        simpa [Nat.succ_le_succ_iff] using hlen
      have hchars' : ∀ x ∈ rest, isWordChar x = true ∨ isSpaceChar x = true :=
        fun x hx => hchars x (by simp [hx])
      cases hc : isWordChar c with
      | false =>
        have hm : matchAt (k :: ks) p (c :: rest) = false := by
          cases hmb : matchAt (k :: ks) p (c :: rest) with
          | false => rfl
          | true =>
            exfalso
            simp only [matchAt, Bool.and_eq_true] at hmb
            obtain ⟨⟨hpre, _⟩, _⟩ := hmb
            rw [List.isPrefixOf_cons₂, Bool.and_eq_true, beq_iff_eq] at hpre
            exact absurd (hpre.1 ▸ hwk) (by simp [hc])
        rw [countAux_zero_cons_neg _ _ _ _ hm, hc, ih rest hlen' hchars' false]
        cases p with
        | false =>
          rw [if_bool_false, if_bool_false, wordTokens_cons_neg c rest hc]
        | true =>
          rw [if_bool_false, if_bool_true,
            List.dropWhile_cons_of_neg (by simp [hc]), wordTokens_cons_neg c rest hc]
      | true =>
        cases p with
        | true =>
          have hm : matchAt (k :: ks) true (c :: rest) = false := by
            simp [matchAt, hwk]
          rw [countAux_zero_cons_neg _ _ _ _ hm, hc, ih rest hlen' hchars' true]
          rw [if_bool_true, if_bool_true, List.dropWhile_cons_of_pos (by simp [hc])]
        | false =>
          cases hm : matchAt (k :: ks) false (c :: rest) with
          | true =>
            have hm' := hm
            simp only [matchAt, Bool.and_eq_true] at hm'
            obtain ⟨⟨hpre, _⟩, hbound⟩ := hm'
            rw [List.isPrefixOf_cons₂, Bool.and_eq_true, beq_iff_eq] at hpre
            obtain ⟨hkc, hpre2⟩ := hpre
            subst hkc
            have hrest : rest = ks ++ rest.drop ks.length :=
              isPrefixOf_append_drop ks rest hpre2
            have hlast : isWordChar (ks.getLastD k) = true :=
              hkw _ (List.getLastD_mem_cons ks k)
            have hnext : (match rest.drop ks.length with
                | [] => false
                | d :: _ => isWordChar d) = false := by
              rw [List.drop_succ_cons, hlast] at hbound
              cases hmt : (match rest.drop ks.length with
                  | [] => false
                  | d :: _ => isWordChar d) with
              | false => rfl
              | true => rw [hmt] at hbound; simp at hbound
            have ht : (rest.drop ks.length).takeWhile isWordChar = [] := by
              rcases hdt : rest.drop ks.length with _ | ⟨d, t2⟩
              · rfl
              · rw [hdt] at hnext
                have hdf : isWordChar d = false := hnext
                exact List.takeWhile_cons_of_neg (by simp [hdf])
            rw [countAux_zero_cons_pos _ _ _ _ hm, hwk]
            have hskiplen : (k :: ks).length - 1 = ks.length := by simp
            rw [hskiplen]
            have hdropsub : (rest.drop ks.length).length ≤ n := by
              have hld := List.length_drop ks.length rest
              omega
            have hcharst : ∀ x ∈ rest.drop ks.length,
                isWordChar x = true ∨ isSpaceChar x = true :=
              fun x hx => hchars' x (List.drop_subset _ _ hx)
            have hstep : countAux (k :: ks) true ks.length rest
                = countAux (k :: ks) true 0 (rest.drop ks.length) := by
              by_cases hks : ks = []
              · subst hks
                rfl
              · conv_lhs => rw [hrest]
                exact countAux_skip (k :: ks) ks (rest.drop ks.length) true
                  (fun x hx => hkw x (by simp [hx])) hks
            rw [hstep, ih (rest.drop ks.length) hdropsub hcharst true]
            rw [if_bool_true, if_bool_false,
              dropWhile_eq_self_of_takeWhile_eq_nil _ _ ht]
            conv_rhs => rw [hrest]
            rw [show (k :: (ks ++ rest.drop ks.length))
                  = (k :: ks) ++ rest.drop ks.length from rfl]
            rw [wordTokens_word_append (k :: ks) (rest.drop ks.length) (by simp) hkw ht]
            rw [List.count_cons_self]
            omega
          | false =>
            rw [countAux_zero_cons_neg _ _ _ _ hm, hc, ih rest hlen' hchars' true]
            rw [if_bool_true, if_bool_false, wordTokens_cons_pos c rest hc]
            have hne : (k :: ks) ≠ (c :: rest.takeWhile isWordChar) := by
              intro heq
              injection heq with hKC hKS
              have hmt : matchAt (k :: ks) false (c :: rest) = true := by
                simp only [matchAt, Bool.and_eq_true]
                refine ⟨⟨?_, ?_⟩, ?_⟩
                · rw [List.isPrefixOf_cons₂, Bool.and_eq_true, beq_iff_eq]
                  exact ⟨hKC, by rw [hKS]; exact takeWhile_isPrefixOf isWordChar rest⟩
                · rw [hwk]
                  rfl
                · have hlast : isWordChar (ks.getLastD k) = true :=
                    hkw _ (List.getLastD_mem_cons ks k)
                  rw [hlast, List.drop_succ_cons, hKS, drop_length_takeWhile]
                  rcases hdw : rest.dropWhile isWordChar with _ | ⟨d, t2⟩
                  · rfl
                  · have hdf := dropWhile_head_not isWordChar rest d t2 hdw
                    show ((true : Bool) != isWordChar d) = true
                    rw [hdf]
                    rfl
              rw [hmt] at hm
              exact absurd hm (by simp)
            rw [List.count_cons_of_ne hne]

theorem countWholeWord_eq_token_count (kw t : String)
    (h1 : kw.toList ≠ []) (h2 : ∀ c ∈ kw.toList, isWordChar c = true)
    (h3 : ∀ c ∈ t.toList, isWordChar c = true ∨ isSpaceChar c = true) :
    countWholeWord kw t = (wordTokens t.toList).count kw.toList := by
  rcases hk : kw.toList with _ | ⟨k, ks⟩
  · exact absurd hk h1
  · simp only [countWholeWord, hk]
    have h2' : ∀ c ∈ k :: ks, isWordChar c = true := by
      rw [← hk]
      exact h2
    have h := countAux_eq_tokens k ks h2' t.toList.length t.toList le_rfl h3 false
    rw [if_bool_false] at h
    exact h

theorem clean_chars (texto : String) :
    ∀ c ∈ (clean texto).toList, isWordChar c = true ∨ isSpaceChar c = true := by
  intro c hc
  have hm : c ∈ (pyLower texto).toList.filter (fun c => isWordChar c || isSpaceChar c) := hc
  have hb := (List.mem_filter.mp hm).2
  simpa [Bool.or_eq_true] using hb

/-- Claim C5: the Category Scorer's per-category score is, for each keyword
(a nonempty literal string of word characters — `re.escape` makes the keyword
literal, which the embedding realises by matching it characterwise), the
number of whole words of the cleaned (lower-cased, punctuation-stripped) text
equal to that keyword, summed over the category's keywords: an occurrence of
the keyword as a proper substring of a longer word is a different word and
contributes nothing. -/
theorem category_scorer_whole_word (texto : String) (cats : List (String × List String))
    (cat : String) (kws : List String)
    (hnd : (cats.map Prod.fst).Nodup) (hmem : (cat, kws) ∈ cats)
    (hkw : ∀ kw ∈ kws, kw.toList ≠ [] ∧ ∀ c ∈ kw.toList, isWordChar c = true) :
    (analyze_categories texto cats).1.lookup cat
      = some ((kws.map (fun kw =>
          (wordTokens ((clean texto).toList)).count kw.toList)).sum) := by
  have hper : ∀ kw ∈ kws, countWholeWord kw (clean texto)
      = (wordTokens ((clean texto).toList)).count kw.toList := by
    intro kw hkwm
    obtain ⟨hne, hall⟩ := hkw kw hkwm
    exact countWholeWord_eq_token_count kw (clean texto) hne hall (clean_chars texto)
  have hmap : kws.map (fun kw => countWholeWord kw (clean texto))
      = kws.map (fun kw => (wordTokens ((clean texto).toList)).count kw.toList) :=
    List.map_congr_left hper
  have hls : (analyze_categories texto cats).1
      = cats.map (fun cp => (cp.1, (cp.2.map (fun p => countWholeWord p (clean texto))).sum)) := by
    rw [analyze_categories_scores texto cats hnd]
  rw [hls]
  have h := lookup_map_nodup cats
    (fun cp => (cp.2.map (fun p => countWholeWord p (clean texto))).sum) cat kws hnd hmem
  refine h.trans ?_
  show some ((kws.map (fun p => countWholeWord p (clean texto))).sum) = _
  rw [hmap]

/-- Witness for Claim C5: "dados" occurs once as a whole word in
"ola dadosxyz e dados" (the occurrence inside "dadosxyz" is not counted). -/
theorem category_scorer_whole_word_witness :
    ("dados".toList ≠ [] ∧ ∀ c ∈ "dados".toList, isWordChar c = true) ∧
    (analyze_categories "ola dadosxyz e dados"
        [("Pensamento Objetivo", ["dados"])]).1.lookup "Pensamento Objetivo"
      = some (((["dados"] : List String).map (fun kw =>
          (wordTokens ((clean "ola dadosxyz e dados").toList)).count kw.toList)).sum) ∧
    (analyze_categories "ola dadosxyz e dados"
        [("Pensamento Objetivo", ["dados"])]).1.lookup "Pensamento Objetivo" = some 1 := by
  refine ⟨⟨by decide, by decide⟩, ?_, by decide⟩
  refine category_scorer_whole_word "ola dadosxyz e dados" _ _ _ (by decide) (by decide) ?_
  intro kw hkw
  have : kw = "dados" := by simpa using hkw
  subst this
  exact ⟨by decide, by decide⟩

/-- Witness for Claim C7 at a concrete text. -/
theorem empty_lexicon_fails_at_axes_witness :
    analyze_categories "ola mundo" [] = ([], 0) ∧
    calculate_percentages (analyze_categories "ola mundo" []).1 = [] ∧
    calculate_axes (calculate_percentages (analyze_categories "ola mundo" []).1) = none :=
  empty_lexicon_fails_at_axes "ola mundo"

/-- Witness for Claim C10 at a concrete text and lexicon. -/
theorem analyze_categories_total_eq_sum_witness :
    (analyze_categories "penso e ajo" [("Pensamento Subjetivo", ["penso"])]).2
      = ((analyze_categories "penso e ajo"
          [("Pensamento Subjetivo", ["penso"])]).1.map Prod.snd).sum :=
  analyze_categories_total_eq_sum "penso e ajo" [("Pensamento Subjetivo", ["penso"])]

end TextoMD
